import Mathlib

/-!
# Verification of the teletext-gui core

A shallow embedding of the page-addressing, history, fetch-state and
document-parsing code of the repository, together with theorems checking
the natural-language specification against it.

Strings are modelled as `List Char` (Rust `&str` cursors advance by
dropping a prefix).  Fallible operations return `Except`/`Option`;
`Option.none` at the outer layer marks a Rust panic (`unwrap`,
out-of-bounds slicing).  All definitions are fuel-free structural
recursions or carry an explicit fuel argument so that they evaluate
inside the kernel.
-/

deriving instance DecidableEq for Except

namespace Teletext

/-! ## Decimal formatting and parsing

`format!` on a nonnegative integer prints its decimal digits;
`str::parse::<i32>` reads an optional sign followed by decimal digits.
-/

/-- The character for a single decimal digit `d < 10`. -/
def digitChar (d : Nat) : Char := Char.ofNat (48 + d)

/-- Fuel-driven decimal printer (most significant digit first).  The fuel
only bounds the recursion depth; `natToChars` supplies enough. -/
def natToCharsAux : Nat → Nat → List Char
  | 0, _ => []
  | f + 1, n =>
    if n < 10 then [digitChar n]
    else natToCharsAux f (n / 10) ++ [digitChar (n % 10)]

/-- Decimal representation of a natural number, as `format!` prints it. -/
def natToChars (n : Nat) : List Char := natToCharsAux (n + 1) n

/-- One character of `str::parse`: a decimal digit or failure. -/
def parseDigit (c : Char) : Option Nat :=
  if 48 ≤ c.toNat ∧ c.toNat ≤ 57 then some (c.toNat - 48) else none

/-- Accumulating digit reader behind `str::parse::<i32>`. -/
def parseNatAux : List Char → Nat → Option Nat
  | [], acc => some acc
  | c :: cs, acc =>
    match parseDigit c with
    | some d => parseNatAux cs (acc * 10 + d)
    | none => none

/-- Unsigned decimal parse; the empty string is a parse error.
(`i32` overflow cannot occur on the at most four characters the
repository ever feeds this, so it is not modelled.) -/
def parseNat (cs : List Char) : Option Nat :=
  if cs.isEmpty then none else parseNatAux cs 0

/-- Rust `str::parse::<i32>`: optional `+`/`-` sign, then decimal digits. -/
def parseI32 (cs : List Char) : Option Int :=
  match cs with
  | [] => none
  | c :: rest =>
    if c = '+' then (parseNat rest).map Int.ofNat
    else if c = '-' then (parseNat rest).map (fun n => -Int.ofNat n)
    else (parseNat cs).map Int.ofNat

/-! ## Page addresses (`TelePage`, src/gui/common.rs and src/gui/yle_text.rs) -/

/-- Embeds `TelePage { page: i32, sub_page: i32 }`. -/
structure TelePage where
  page : Int
  sub_page : Int
deriving DecidableEq, Repr

/-- Rendering by `format!` of an `i32` with no width: sign, then digits. -/
def intToChars (i : Int) : List Char :=
  if i < 0 then '-' :: natToChars i.natAbs else natToChars i.toNat

/-- Rendering by `format!` of an `i32` under the width-4 zero-padding spec used for the
sub page: the rendered text (sign included) is left-padded with zeros to
at least four characters, the zeros sitting after the sign. -/
def intToCharsPad4 (i : Int) : List Char :=
  if i < 0 then
    '-' :: (List.replicate (3 - (natToChars i.natAbs).length) '0' ++ natToChars i.natAbs)
  else
    List.replicate (4 - (natToChars i.toNat).length) '0' ++ natToChars i.toNat

/-- Embeds `TelePage::to_page_str` from src/gui/yle_text.rs: the page number
unpadded, an underscore, the sub page zero-padded to four digits, and the
`.htm` suffix. -/
def toPageStrText (p : TelePage) : List Char :=
  intToChars p.page ++ '_' :: (intToCharsPad4 p.sub_page ++ ".htm".toList)

/-- Embeds `<YleImage as TelePager>::to_page_str` from src/gui/yle_image.rs:
same as the text form but without the `.htm` suffix. -/
def toPageStrImage (p : TelePage) : List Char :=
  intToChars p.page ++ '_' :: intToCharsPad4 p.sub_page

/-- Embeds `from_page_str` (identical in src/gui/yle_text.rs and
src/gui/yle_image.rs): parse the fixed byte ranges `[0..3]` and `[4..8]`
as `i32`, `unwrap`ping both.  `none` marks the panic paths: a slice out
of range or a failed integer parse. -/
def fromPageStr (cs : List Char) : Option TelePage :=
  if cs.length < 3 then none
  else
    (parseI32 (cs.take 3)).bind fun p =>
      if cs.length < 8 then none
      else
        (parseI32 ((cs.drop 4).take 4)).bind fun sp => some ⟨p, sp⟩

/-! ## Navigation history (`TeleHistory`, src/gui/common.rs lines 54-102) -/

/-- Embeds `TeleHistory { pages: Vec<TelePage>, current: usize }`. -/
structure TeleHistory where
  pages : List TelePage
  current : Nat
deriving DecidableEq, Repr

namespace TeleHistory

/-- Embeds `TeleHistory::new`. -/
def new (first_page : TelePage) : TeleHistory := ⟨[first_page], 0⟩

/-- Embeds `TeleHistory::add`: advance the cursor, truncate the vector to the
cursor length, push the new page. -/
def add (h : TeleHistory) (page : TelePage) : TeleHistory :=
  let c := h.current + 1
  ⟨h.pages.take c ++ [page], c⟩

/-- Embeds `TeleHistory::prev`.  The outer `Option` marks the panic of the
`unwrap` on `pages.get(current)`; the inner one is the function's own
return value (`None` = no-op at the boundary). -/
def prev (h : TeleHistory) : Option (TeleHistory × Option TelePage) :=
  if h.current > 0 then
    match h.pages.get? (h.current - 1) with
    | some p => some (⟨h.pages, h.current - 1⟩, some p)
    | none => none
  else some (h, none)

/-- Embeds `TeleHistory::prev_trunc`: truncate to the old cursor, then step the
cursor back and return the page there.  Outer `Option` again marks the
`unwrap` panic. -/
def prev_trunc (h : TeleHistory) : Option (TeleHistory × Option TelePage) :=
  if h.current > 0 then
    let pages := h.pages.take h.current
    match pages.get? (h.current - 1) with
    | some p => some (⟨pages, h.current - 1⟩, some p)
    | none => none
  else some (h, none)

/-- Embeds `TeleHistory::next`.  (`pages.len() - 1` is `usize` arithmetic; under
the invariant `pages` is nonempty, where `Nat` and `usize` subtraction
agree.) -/
def next (h : TeleHistory) : Option (TeleHistory × Option TelePage) :=
  if h.current < h.pages.length - 1 then
    match h.pages.get? (h.current + 1) with
    | some p => some (⟨h.pages, h.current + 1⟩, some p)
    | none => none
  else some (h, none)

/-- The history invariant stated by the spec: `0 <= cursor < pages.length`. -/
def Inv (h : TeleHistory) : Prop := h.current < h.pages.length

instance : DecidablePred Inv := fun h => by unfold Inv; infer_instance

end TeleHistory

/-! ## Parser primitives (src/parser/common.rs) -/

/-- Embeds `ParseErr` — the single error kind of the parser, which the spec
calls `MalformedDocument`. -/
inductive ParseErr where
  | InvalidPage
deriving DecidableEq, Repr

/-- HTML tag classification (src/parser/common.rs `TagType`). -/
inductive TagType where
  | Unknown
  | P
  | Big
  | Div
  | Pre
  | Link
  | Font
  | Span
  | Center
deriving DecidableEq, Repr

/-- Embeds `HtmlLink { url, inner_text }`. -/
structure HtmlLink where
  url : List Char
  inner_text : List Char
deriving DecidableEq, Repr

/-- Embeds `HtmlItem::{Text, Link}`. -/
inductive HtmlItem where
  | Text (t : List Char)
  | Link (l : HtmlLink)
deriving DecidableEq, Repr

/-- Rust `str::find` for a literal substring: the first index at which `pat`
occurs in `hay` (`find("")` is `Some(0)`, as in Rust). -/
def findSub (hay pat : List Char) : Option Nat :=
  if pat.isPrefixOf hay then some 0
  else
    match hay with
    | [] => none
    | _ :: t => (findSub t pat).map (· + 1)

/-- Decode one HTML entity at the head of the input, returning the decoded
character and how many input characters it consumed.  Modelled from the
external `html_escape` crate (an excluded collaborator): the handful of
named entities the teletext pages use. -/
def decodeEntity (cs : List Char) : Option (Char × Nat) :=
  if "&amp;".toList.isPrefixOf cs then some ('&', 5)
  else if "&lt;".toList.isPrefixOf cs then some ('<', 4)
  else if "&gt;".toList.isPrefixOf cs then some ('>', 4)
  else if "&quot;".toList.isPrefixOf cs then some ('"', 6)
  else if "&nbsp;".toList.isPrefixOf cs then some (' ', 6)
  else none

/-- Fuel-driven entity decoder behind `decode_string`
(src/parser/common.rs), modelling `html_escape::decode_html_entities`:
replace recognised `&...;` entities, copy everything else verbatim. -/
def decodeStringAux : Nat → List Char → List Char
  | 0, _ => []
  | _ + 1, [] => []
  | f + 1, c :: cs =>
    if c = '&' then
      match decodeEntity (c :: cs) with
      | some (d, k) => d :: decodeStringAux f ((c :: cs).drop k)
      | none => c :: decodeStringAux f cs
    else c :: decodeStringAux f cs

/-- Embeds `decode_string` (src/parser/common.rs). -/
def decodeString (cs : List Char) : List Char := decodeStringAux (cs.length + 1) cs

/-- Embeds `HtmlParser::get_tag_type`: strip one leading `<`, then classify by
literal prefix, in the source's order (so `pre` is shadowed by the `p`
check, exactly as in the code). -/
def getTagType (current : List Char) : TagType :=
  let html := match current with
    | '<' :: t => t
    | other => other
  if html.head? = some 'p' then .P
  else if html.head? = some 'a' then .Link
  else if "big".toList.isPrefixOf html then .Big
  else if "div".toList.isPrefixOf html then .Div
  else if "pre".toList.isPrefixOf html then .Pre
  else if "font".toList.isPrefixOf html then .Font
  else if "span".toList.isPrefixOf html then .Span
  else if "center".toList.isPrefixOf html then .Center
  else .Unknown

/-- Embeds `HtmlParser::skip_next_string`: advance past the first occurrence of
`pat`, or fail. -/
def skipNextString (cur pat : List Char) : Except ParseErr (List Char) :=
  match findSub cur pat with
  | none => .error .InvalidPage
  | some i => .ok (cur.drop (i + pat.length))

/-- Embeds `HtmlParser::skip_next_char`: advance past the first occurrence of a
character. -/
def skipNextChar (cur : List Char) (c : Char) : Except ParseErr (List Char) :=
  skipNextString cur [c]

/-- Embeds `HtmlParser::skip_next_tag`: skip past `<tag` (or `</tag`), then past
the next `>`. -/
def skipNextTag (cur : List Char) (tag : List Char) (closing : Bool) : Except ParseErr (List Char) :=
  let htmlTag := if closing then '<' :: '/' :: tag else '<' :: tag
  match skipNextString cur htmlTag with
  | .error e => .error e
  | .ok cur => skipNextChar cur '>'

/-- Embeds `HtmlParser::parse_current_link`: extract `href="..."` as the url,
advance past the end of the opening tag, take the entity-decoded text up
to the next `<` as the label, then skip past `</a...>`. -/
def parseCurrentLink (cur : List Char) : Except ParseErr (List Char × HtmlLink) :=
  match skipNextString cur "href=\"".toList with
  | .error e => .error e
  | .ok cur =>
    match findSub cur ['"'] with
    | none => .error .InvalidPage
    | some urlEnd =>
      let url := cur.take urlEnd
      match skipNextString cur ">".toList with
      | .error e => .error e
      | .ok cur =>
        match findSub cur ['<'] with
        | none => .error .InvalidPage
        | some innerEnd =>
          let innerText := decodeString (cur.take innerEnd)
          match skipNextTag cur "a".toList true with
          | .error e => .error e
          | .ok cur => .ok (cur, ⟨url, innerText⟩)

/-- The byte length of a string (`str::len` counts UTF-8 bytes, not
characters), used by the 12-byte link rule. -/
def utf8Len (cs : List Char) : Nat :=
  cs.foldl (fun acc c =>
    acc + (if c.toNat < 128 then 1
      else if c.toNat < 2048 then 2
      else if c.toNat < 65536 then 3
      else 4)) 0

/-! ## The TextPage parser (src/parser/yle_text.rs) -/

/-- The parsed TextPage document (`TeleText`). -/
structure TeleTextDoc where
  title : List Char
  page_navigation : List HtmlItem
  bottom_navigation : List HtmlLink
  sub_pages : List HtmlItem
  middle_rows : List (List HtmlItem)
deriving DecidableEq, Repr

/-- Embeds `TeleText::parse_title`: skip past the `big` tag and take the
entity-decoded text up to the next `<`.  (As in the source, the returned
cursor is the one right after the `big` tag.) -/
def parseTitle (cur : List Char) : Except ParseErr (List Char × List Char) :=
  match skipNextTag cur "big".toList false with
  | .error e => .error e
  | .ok cur =>
    match findSub cur ['<'] with
    | none => .error .InvalidPage
    | some textEnd => .ok (cur, decodeString (cur.take textEnd))

/-- One slot of `TeleText::parse_top_navigation`: an anchor parses as a
`Link`; anything else is captured as raw text up to the next `&` (or `<`
on the last slot, `last_link`). -/
def topNavItem (lastLink : Bool) (cur : List Char) :
    Except ParseErr (List Char × HtmlItem) :=
  match getTagType cur with
  | .Link =>
    match parseCurrentLink cur with
    | .error e => .error e
    | .ok (cur, link) => .ok (cur, .Link link)
  | _ =>
    let endchar : Char := if lastLink then '<' else '&'
    match findSub cur [endchar] with
    | none => .error .InvalidPage
    | some textEnd =>
      let text := cur.take textEnd
      match skipNextChar cur endchar with
      | .error e => .error e
      | .ok cur => .ok (cur, .Text text)

/-- The body of `TeleText::parse_top_navigation`'s `for` loop: `k` slots
remain of the fixed `TOP_NAVIGATION_SIZE = 4`, `ii` is the loop index;
`&nbsp;` is skipped before every slot but the first and `nbsp;|` after
every slot but the last. -/
def topNavAux : Nat → Nat → List Char → List HtmlItem →
    Except ParseErr (List Char × List HtmlItem)
  | 0, _, cur, acc => .ok (cur, acc)
  | k + 1, ii, cur, acc =>
    match (if ii ≠ 0 then skipNextString cur "&nbsp;".toList else .ok cur) with
    | .error e => .error e
    | .ok cur =>
      match topNavItem (ii = 3) cur with
      | .error e => .error e
      | .ok (cur, item) =>
        match (if ii ≠ 3 then skipNextString cur "nbsp;|".toList else .ok cur) with
        | .error e => .error e
        | .ok cur => topNavAux k (ii + 1) cur (acc ++ [item])

/-- Embeds `TeleText::parse_top_navigation`: skip to the `SPAN` marker, then fill
exactly four slots. -/
def parseTopNavigation (cur : List Char) : Except ParseErr (List Char × List HtmlItem) :=
  match skipNextTag cur "SPAN".toList false with
  | .error e => .error e
  | .ok cur => topNavAux 4 0 cur []

/-- Embeds `TeleText::parse_middle_link`: parse the anchor under the cursor; a
url of exactly `HTML_LINK_SIZE = 12` bytes stays a link (`Sum.inl`), any
other length is demoted to its label text (`Sum.inr`). -/
def parseMiddleLink (cur : List Char) :
    Except ParseErr (List Char × (HtmlLink ⊕ List Char)) :=
  match parseCurrentLink cur with
  | .error e => .error e
  | .ok (cur, link) =>
    if utf8Len link.url ≠ 12 then .ok (cur, .inr link.inner_text)
    else .ok (cur, .inl link)

/-- Outcome of the inner row loop of `parse_middle`. -/
inductive RowOut where
  | row (items : List HtmlItem)
  | err
  /-- The loop body left `state.current` unchanged (a `<` at position 0
  that does not classify as an anchor), so the Rust `while` never
  terminates. -/
  | diverges
  | fuelOut
deriving DecidableEq, Repr

/-- The inner `while !state.current.is_empty()` loop of
`TeleText::parse_middle`, scanning one line into alternating text runs
and (possibly demoted) anchor links. -/
def parseRowItems : Nat → List Char → List HtmlItem → RowOut
  | 0, _, _ => .fuelOut
  | f + 1, cur, acc =>
    if cur.isEmpty then .row acc
    else
      match getTagType cur with
      | .Link =>
        match parseMiddleLink cur with
        | .error _ => .err
        | .ok (cur, .inl link) => parseRowItems f cur (acc ++ [.Link link])
        | .ok (cur, .inr text) => parseRowItems f cur (acc ++ [.Text text])
      | _ =>
        match findSub cur ['<'] with
        | some 0 => .diverges
        | some start => parseRowItems f (cur.drop start) (acc ++ [.Text (decodeString (cur.take start))])
        | none => parseRowItems f [] (acc ++ [.Text (decodeString cur)])

/-- Outcome of `parse_middle`. -/
inductive MidOut where
  | rows (rs : List (List HtmlItem)) (rest : List Char)
  | err
  /-- The slice `&parse_text[line_len + 2..]` is out of range: the line's
  `\r` is the last character of the buffer, and Rust panics. -/
  | panics
  | diverges
  | fuelOut
deriving DecidableEq, Repr

/-- The outer `while !state.current.starts_with("</pre>")` loop of
`TeleText::parse_middle`: one iteration per CR-terminated line. -/
def parseMiddleRows : Nat → List Char → List (List HtmlItem) → MidOut
  | 0, _, _ => .fuelOut
  | f + 1, cur, acc =>
    if "</pre>".toList.isPrefixOf cur then .rows acc cur
    else
      match findSub cur ['\r'] with
      | none => .err
      | some lineLen =>
        if cur.isEmpty ∨ cur.head? = some '&' then
          if cur.length < lineLen + 2 then .panics
          else parseMiddleRows f (cur.drop (lineLen + 2)) (acc ++ [[]])
        else
          match parseRowItems (lineLen + 1) (cur.take lineLen) [] with
          | .err => .err
          | .diverges => .diverges
          | .fuelOut => .fuelOut
          | .row items =>
            if cur.length < lineLen + 2 then .panics
            else parseMiddleRows f (cur.drop (lineLen + 2)) (acc ++ [items])

/-- Embeds `TeleText::parse_middle`: skip past the `pre` tag, then consume lines
until the closing `</pre>`. -/
def parseMiddle (cur : List Char) : MidOut :=
  match skipNextTag cur "pre".toList false with
  | .error _ => .err
  | .ok cur => parseMiddleRows (cur.length + 1) cur []

/-- Outcome of `parse_sub_pages`. -/
inductive SubOut where
  | ok (rest : List Char) (items : List HtmlItem)
  | err
  /-- A `<` at position 0 that is neither a font wrapper nor an anchor
  leaves the cursor unchanged, so the Rust loop never terminates. -/
  | diverges
  | fuelOut
deriving DecidableEq, Repr

/-- The `while !state.current.starts_with("</p>")` loop of
`TeleText::parse_sub_pages`. -/
def subPagesAux : Nat → List Char → List HtmlItem → SubOut
  | 0, _, _ => .fuelOut
  | f + 1, cur, acc =>
    if "</p>".toList.isPrefixOf cur then .ok cur acc
    else
      match getTagType cur with
      | .Font =>
        match skipNextTag cur "font".toList true with
        | .error _ => .err
        | .ok cur => subPagesAux f cur acc
      | .Link =>
        match parseCurrentLink cur with
        | .error _ => .err
        | .ok (cur, link) => subPagesAux f cur (acc ++ [.Link link])
      | _ =>
        match findSub cur ['<'] with
        | none => .err
        | some 0 => .diverges
        | some start => subPagesAux f (cur.drop start) (acc ++ [.Text (cur.take start)])

/-- Embeds `TeleText::parse_sub_pages`: skip to the next `p` tag, then loop until
`</p>`. -/
def parseSubPages (cur : List Char) : SubOut :=
  match skipNextTag cur "p".toList false with
  | .error _ => .err
  | .ok cur => subPagesAux (cur.length + 1) cur []

/-- The `for` loop of `parse_bottom_navigation`: parse `k` consecutive
anchors (`BOTTOM_NAVIGATION_SIZE = 6` at the top call). -/
def bottomNavAux : Nat → List Char → List HtmlLink →
    Except ParseErr (List Char × List HtmlLink)
  | 0, cur, acc => .ok (cur, acc)
  | k + 1, cur, acc =>
    match parseCurrentLink cur with
    | .error e => .error e
    | .ok (cur, link) => bottomNavAux k cur (acc ++ [link])

/-- Embeds `TeleText::parse_bottom_navigation`: skip to the next `p` tag, then
parse exactly six links. -/
def parseBottomNavigation (cur : List Char) : Except ParseErr (List Char × List HtmlLink) :=
  match skipNextTag cur "p".toList false with
  | .error e => .error e
  | .ok cur => bottomNavAux 6 cur []

/-- Outcome of the whole TextPage parse. -/
inductive TTOut where
  | ok (t : TeleTextDoc)
  | err
  | panics
  | diverges
  | fuelOut
deriving DecidableEq, Repr

/-- Embeds `<TeleText as HtmlParser>::parse`: the five strict phases over one
shared cursor. -/
def parseTeleText (s : List Char) : TTOut :=
  match parseTitle s with
  | .error _ => .err
  | .ok (s, title) =>
    match parseTopNavigation s with
    | .error _ => .err
    | .ok (s, topNav) =>
      match parseMiddle s with
      | .err => .err
      | .panics => .panics
      | .diverges => .diverges
      | .fuelOut => .fuelOut
      | .rows middle s =>
        match parseSubPages s with
        | .err => .err
        | .diverges => .diverges
        | .fuelOut => .fuelOut
        | .ok s subPages =>
          match parseBottomNavigation s with
          | .error _ => .err
          | .ok (_, bottomNav) => .ok ⟨title, topNav, bottomNav, subPages, middle⟩

/-! ## The ImagePage image extraction (src/parser/yle_image.rs) -/

/-- The value of one character of the standard base64 alphabet.
Modelled from the external `base64` crate (an excluded collaborator). -/
def b64Val (c : Char) : Option Nat :=
  if 65 ≤ c.toNat ∧ c.toNat ≤ 90 then some (c.toNat - 65)
  else if 97 ≤ c.toNat ∧ c.toNat ≤ 122 then some (c.toNat - 97 + 26)
  else if 48 ≤ c.toNat ∧ c.toNat ≤ 57 then some (c.toNat - 48 + 52)
  else if c = '+' then some 62
  else if c = '/' then some 63
  else none

/-- Base64 decoding with the `general_purpose::STANDARD` engine, modelled
from the external `base64` crate: four-character blocks, canonical `=`
padding, rejection of any character outside the alphabet, of lengths that
are not multiples of four, and of nonzero trailing bits. -/
def base64Decode : List Char → Option (List Nat)
  | [] => some []
  | a :: b :: c :: d :: rest =>
    match b64Val a, b64Val b with
    | some va, some vb =>
      if c = '=' then
        if d = '=' ∧ rest = [] ∧ vb % 16 = 0 then some [va * 4 + vb / 16] else none
      else
        match b64Val c with
        | none => none
        | some vc =>
          if d = '=' then
            if rest = [] ∧ vc % 4 = 0 then
              some [va * 4 + vb / 16, (vb % 16) * 16 + vc / 4]
            else none
          else
            match b64Val d with
            | none => none
            | some vd =>
              match base64Decode rest with
              | none => none
              | some bytes =>
                some ([va * 4 + vb / 16, (vb % 16) * 16 + vc / 4, (vc % 4) * 64 + vd] ++ bytes)
    | _, _ => none
  | _ => none

/-- Embeds `YleImage::parse_image`: skip past the `data:image/png;base64,`
marker, take the run up to the next quote, base64-decode it.  The decode
result is `unwrap`ped in the source, so a decode failure is a panic —
the outer `none`. -/
def parseImage (cur : List Char) : Option (Except ParseErr (List Char × List Nat)) :=
  match skipNextString cur "data:image/png;base64,".toList with
  | .error e => some (.error e)
  | .ok cur =>
    match findSub cur ['"'] with
    | none => some (.error .InvalidPage)
    | some imageEnd =>
      match base64Decode (cur.take imageEnd) with
      | none => none
      | some image => some (.ok (cur, image))

/-! ## Fetch state and the page-load task (src/gui/common.rs and
src/gui/yle_text.rs) -/

/-- Embeds `FetchState<T>`. -/
inductive FetchState (α : Type) where
  | Init
  | InitFailed
  | Fetching
  | Error
  | Complete (t : α)
deriving DecidableEq, Repr

/-- Returns `true` exactly on `Complete` (the `match` guard at the top of
`handle_input`). -/
def FetchState.isComplete {α : Type} : FetchState α → Bool
  | .Complete _ => true
  | _ => false

/-- The tail of the task spawned by `load_page`: `is_init` is observed
from the state *before* the task sets `Fetching`; a fetch success stores
`Complete`, a failure stores `InitFailed` when `is_init` and `Error`
otherwise. -/
def loadPageTaskResult {α : Type} (prior : FetchState α) (fetched : Except Unit α) :
    FetchState α :=
  let is_init : Bool := match prior with
    | .Init | .InitFailed => true
    | _ => false
  match fetched with
  | .ok t => .Complete t
  | .error _ => if is_init then .InitFailed else .Error

/-- Outcome of the transport collaborator: the response body, or a failure
anywhere in `send()`/`text()`. -/
inductive TransportResult where
  | ok (body : List Char)
  | err
deriving DecidableEq, Repr

/-- The native (non-wasm) `GuiContext::fetch_page`
(src/gui/common.rs lines 472-489): `send()`, `text()` and `parse()` are
all `unwrap`ped, so any failure panics the spawned thread (`none`); the
declared `Err` variant of its `Result<T, ()>` is never produced. -/
def fetchPageNativeCommon {α : Type} (parse : List Char → Except ParseErr α)
    (tr : TransportResult) : Option (Except Unit α) :=
  match tr with
  | .err => none
  | .ok body =>
    match parse body with
    | .error _ => none
    | .ok t => some (.ok t)

/-- The native spawned task of the generic `GuiContext::load_page`: the
pair is (did the thread panic, the `FetchState` value left behind).  The
task writes `Fetching` before fetching, so a panic leaves the shared
state at `Fetching` forever. -/
def loadPageTaskNativeCommon {α : Type} (parse : List Char → Except ParseErr α)
    (prior : FetchState α) (tr : TransportResult) : Bool × FetchState α :=
  match fetchPageNativeCommon parse tr with
  | none => (true, .Fetching)
  | some r => (false, loadPageTaskResult prior r)

/-- Embeds `GuiYleTextContext::fetch_page` (src/gui/yle_text.rs lines 520-527):
transport and parse failures are mapped to `Err(())`. -/
def fetchPageYleText (tr : TransportResult) : Except Unit TeleTextDoc :=
  match tr with
  | .err => .error ()
  | .ok body =>
    match parseTeleText body with
    | .ok t => .ok t
    | _ => .error ()

/-! ## The controller (`GuiYleTextContext`, src/gui/yle_text.rs) -/

/-- The controller state touched by `handle_input`: the shared fetch
state, the current page address, the history and the three-digit page
buffer.  (The egui handle and the refresh worker are excluded
collaborators.) -/
structure YleCtx where
  state : FetchState TeleTextDoc
  current_page : TelePage
  history : TeleHistory
  page_buffer : List Int
deriving DecidableEq, Repr

/-- One frame of user input, at the boundary the controller consumes it:
the result of `input_to_num` (the released digit key, if any) and the
release state of the two extra pointer buttons. -/
structure InputEv where
  num : Option Int
  extra1 : Bool
  extra2 : Bool
deriving DecidableEq, Repr

/-- Embeds `GuiYleTextContext::load_page`: re-parse the page string into the
current address (the `unwrap` inside `from_page_str` can panic: `none`),
optionally push it onto the history, and dispatch the fetch task.  The
returned list records the dispatched page strings. -/
def loadPage (ctx : YleCtx) (page : List Char) (addToHistory : Bool) :
    Option (YleCtx × List (List Char)) :=
  match fromPageStr page with
  | none => none
  | some p =>
    let ctx := { ctx with current_page := p }
    let ctx := if addToHistory then { ctx with history := ctx.history.add p } else ctx
    some (ctx, [page])

/-- Embeds `GuiYleTextContext::load_current_page`. -/
def loadCurrentPage (ctx : YleCtx) : Option (YleCtx × List (List Char)) :=
  loadPage ctx (toPageStrText ctx.current_page) false

/-- Embeds `GuiYleTextContext::handle_input` (src/gui/yle_text.rs lines
412-446): ignore everything unless the state is `Complete`; otherwise
accumulate digits (three digits dispatch a jump and clear the buffer),
then handle the back/forward pointer buttons.  `none` marks a panic in
one of the `unwrap`s reached on the way. -/
def handleInput (ctx : YleCtx) (inp : InputEv) : Option (YleCtx × List (List Char)) :=
  if ctx.state.isComplete = false then some (ctx, [])
  else
    let digitStage : Option (YleCtx × List (List Char)) :=
      match inp.num with
      | none => some (ctx, [])
      | some num =>
        let buf := if ctx.page_buffer.length < 3 then ctx.page_buffer ++ [num]
          else ctx.page_buffer
        let ctx := { ctx with page_buffer := buf }
        if buf.length = 3 then
          let pageNum := buf.foldl (fun acum val => acum * 10 + val) 0
          loadPage { ctx with page_buffer := [] } (toPageStrText ⟨pageNum, 1⟩) true
        else some (ctx, [])
    match digitStage with
    | none => none
    | some (ctx, loads) =>
      let prevStage : Option (YleCtx × List (List Char)) :=
        if inp.extra1 then
          match ctx.history.prev with
          | none => none
          | some (h, none) => some ({ ctx with history := h }, [])
          | some (h, some page) =>
            loadCurrentPage { ctx with history := h, current_page := page }
        else some (ctx, [])
      match prevStage with
      | none => none
      | some (ctx, loads2) =>
        let nextStage : Option (YleCtx × List (List Char)) :=
          if inp.extra2 then
            match ctx.history.next with
            | none => none
            | some (h, none) => some ({ ctx with history := h }, [])
            | some (h, some page) =>
              loadCurrentPage { ctx with history := h, current_page := page }
          else some (ctx, [])
        match nextStage with
        | none => none
        | some (ctx, loads3) => some (ctx, loads ++ loads2 ++ loads3)

/-! ## Theorems -/

/-- The decimal printer is independent of its fuel once the fuel exceeds
the number being printed. -/
theorem natToCharsAux_congr (n : Nat) : ∀ f1 f2, n < f1 → n < f2 →
    natToCharsAux f1 n = natToCharsAux f2 n := by
  induction n using Nat.strong_induction_on with
  | _ n ih =>
    intro f1 f2 h1 h2
    obtain ⟨g1, rfl⟩ : ∃ g, f1 = g + 1 := ⟨f1 - 1, by omega⟩
    obtain ⟨g2, rfl⟩ : ∃ g, f2 = g + 1 := ⟨f2 - 1, by omega⟩
    simp only [natToCharsAux]
    by_cases h10 : n < 10
    · simp [h10]
    · simp only [if_neg h10]
      congr 1
      exact ih (n / 10) (by omega) g1 g2 (by omega) (by omega)

/-- Unfolding rule for `natToChars`. -/
theorem natToChars_eq (n : Nat) :
    natToChars n =
      if n < 10 then [digitChar n]
      else natToChars (n / 10) ++ [digitChar (n % 10)] := by
  unfold natToChars
  simp only [natToCharsAux]
  by_cases h10 : n < 10
  · simp [h10]
  · simp only [if_neg h10]
    congr 1
    exact natToCharsAux_congr (n / 10) n (n / 10 + 1) (by omega) (by omega)

/-- A decimal rendering is never empty. -/
theorem natToChars_ne_nil (n : Nat) : natToChars n ≠ [] := by
  rw [natToChars_eq]
  split <;> simp

/-- The digit characters have the expected code points and parse back. -/
theorem digitChar_spec (d : Nat) (h : d < 10) :
    (digitChar d).toNat = 48 + d ∧ parseDigit (digitChar d) = some d := by
  interval_cases d <;> exact ⟨by decide, by decide⟩

/-- Every character of a decimal rendering is a digit. -/
theorem natToChars_digits (n : Nat) : ∀ c ∈ natToChars n,
    48 ≤ c.toNat ∧ c.toNat ≤ 57 := by
  induction n using Nat.strong_induction_on with
  | _ n ih =>
    rw [natToChars_eq]
    by_cases h10 : n < 10
    · simp only [if_pos h10, List.mem_singleton]
      rintro c rfl
      have := (digitChar_spec n h10).1
      omega
    · simp only [if_neg h10, List.mem_append, List.mem_singleton]
      rintro c (hc | rfl)
      · exact ih (n / 10) (by omega) c hc
      · have := (digitChar_spec (n % 10) (by omega)).1
        omega

/-- Digit accumulation splits over list append. -/
theorem parseNatAux_append (xs ys : List Char) : ∀ acc,
    parseNatAux (xs ++ ys) acc =
      match parseNatAux xs acc with
      | some m => parseNatAux ys m
      | none => none := by
  induction xs with
  | nil => intro acc; rfl
  | cons c cs ih =>
    intro acc
    simp only [List.cons_append, parseNatAux]
    cases hd : parseDigit c with
    | none => rfl
    | some d => exact ih _

/-- Reading a decimal rendering back accumulates the printed number. -/
theorem parseNatAux_natToChars (n : Nat) : ∀ acc,
    parseNatAux (natToChars n) acc =
      some (acc * 10 ^ (natToChars n).length + n) := by
  induction n using Nat.strong_induction_on with
  | _ n ih =>
    intro acc
    rw [natToChars_eq]
    by_cases h10 : n < 10
    · simp only [if_pos h10]
      have hd := (digitChar_spec n h10).2
      simp [parseNatAux, hd, pow_one]
    · simp only [if_neg h10]
      rw [parseNatAux_append]
      rw [ih (n / 10) (by omega) acc]
      have hd := (digitChar_spec (n % 10) (by omega)).2
      simp only [parseNatAux, hd]
      simp only [List.length_append, List.length_singleton]
      congr 1
      rw [pow_succ, ← mul_assoc]
      have key : ∀ X : Nat, (X + n / 10) * 10 + n % 10 = X * 10 + n :=
        fun X => by omega
      exact key _

/-- The round trip on plain decimal renderings. -/
theorem parseNat_natToChars (n : Nat) : parseNat (natToChars n) = some n := by
  unfold parseNat
  rw [if_neg (by simp [natToChars_ne_nil])]
  simpa using parseNatAux_natToChars n 0

/-- Leading zeros do not change the accumulated value. -/
theorem parseNatAux_zeros (cs : List Char) : ∀ k : Nat,
    parseNatAux (List.replicate k '0' ++ cs) 0 = parseNatAux cs 0 := by
  intro k
  induction k with
  | zero => rfl
  | succ k ih =>
    have h0 : parseDigit '0' = some 0 := by decide
    simp only [List.replicate_succ, List.cons_append, parseNatAux, h0]
    simpa using ih

/-- The round trip on a zero-padded decimal rendering. -/
theorem parseNat_pad (k n : Nat) :
    parseNat (List.replicate k '0' ++ natToChars n) = some n := by
  unfold parseNat
  rw [if_neg (by simp [natToChars_ne_nil])]
  rw [parseNatAux_zeros]
  simpa using parseNatAux_natToChars n 0

/-- Parsing by `str::parse::<i32>` round-trips a zero-padded decimal rendering. -/
theorem parseI32_pad (k n : Nat) :
    parseI32 (List.replicate k '0' ++ natToChars n) = some (Int.ofNat n) := by
  cases k with
  | zero =>
    simp only [List.replicate, List.nil_append]
    obtain ⟨c, t, hct⟩ : ∃ c t, natToChars n = c :: t := by
      cases hx : natToChars n with
      | nil => exact absurd hx (natToChars_ne_nil n)
      | cons c t => exact ⟨c, t, rfl⟩
    have hdig := natToChars_digits n c (by rw [hct]; simp)
    have hplus : ¬c = '+' := by
      intro hc
      subst hc
      exact absurd hdig (by decide)
    have hminus : ¬c = '-' := by
      intro hc
      subst hc
      exact absurd hdig (by decide)
    rw [hct]
    simp only [parseI32]
    rw [if_neg hplus, if_neg hminus, ← hct, parseNat_natToChars]
    rfl
  | succ k =>
    simp only [List.replicate_succ, List.cons_append, parseI32]
    rw [if_neg (by decide), if_neg (by decide)]
    have hrepl : '0' :: (List.replicate k '0' ++ natToChars n)
        = List.replicate (k + 1) '0' ++ natToChars n := by
      simp [List.replicate_succ]
    rw [hrepl, parseNat_pad]
    rfl

/-- Parsing by `str::parse::<i32>` round-trips a plain decimal rendering. -/
theorem parseI32_natToChars (n : Nat) :
    parseI32 (natToChars n) = some (Int.ofNat n) := by
  simpa using parseI32_pad 0 n

/-- Upper bound on the number of printed digits. -/
theorem natToChars_length_le (k : Nat) : ∀ n, n < 10 ^ k → 1 ≤ k →
    (natToChars n).length ≤ k := by
  induction k with
  | zero => intro n _ h1; omega
  | succ k ih =>
    intro n h _
    rw [natToChars_eq]
    by_cases h10 : n < 10
    · simp only [if_pos h10, List.length_singleton]
      omega
    · simp only [if_neg h10, List.length_append, List.length_singleton]
      have hdiv : n / 10 < 10 ^ k := by
        rw [Nat.div_lt_iff_lt_mul (by norm_num)]
        rw [← pow_succ]
        exact h
      have hk : 1 ≤ k := by
        by_contra hk0
        have hk00 : k = 0 := by omega
        subst hk00
        norm_num at h
        omega
      have := ih (n / 10) hdiv hk
      omega

/-- Lower bound on the number of printed digits. -/
theorem natToChars_length_ge (k : Nat) : ∀ n, 10 ^ k ≤ n →
    k + 1 ≤ (natToChars n).length := by
  induction k with
  | zero =>
    intro n _
    cases hx : natToChars n with
    | nil => exact absurd hx (natToChars_ne_nil n)
    | cons c t => simp
  | succ k ih =>
    intro n h
    rw [natToChars_eq]
    have hpow : (10 : Nat) ≤ 10 ^ (k + 1) := by
      calc (10 : Nat) = 10 ^ 1 := (pow_one 10).symm
      _ ≤ 10 ^ (k + 1) := Nat.pow_le_pow_right (by norm_num) (by omega)
    have h10 : ¬n < 10 := by omega
    simp only [if_neg h10, List.length_append, List.length_singleton]
    have hdiv : 10 ^ k ≤ n / 10 := by
      rw [Nat.le_div_iff_mul_le (by norm_num)]
      calc 10 ^ k * 10 = 10 ^ (k + 1) := (pow_succ 10 k).symm
      _ ≤ n := h
    have := ih (n / 10) hdiv
    omega

/-- Lemma: `from_page_str` inverts a serialized address of the shape
`DDD_dddd<suffix>`: three page digits, an underscore, the sub page padded
to four characters, and an arbitrary suffix (`.htm` or nothing). -/
theorem fromPageStr_shape (P S : Nat) (suffix : List Char)
    (hP3 : (natToChars P).length = 3) (hS4 : (natToChars S).length ≤ 4) :
    fromPageStr (natToChars P ++ '_' ::
        ((List.replicate (4 - (natToChars S).length) '0' ++ natToChars S) ++ suffix))
      = some ⟨Int.ofNat P, Int.ofNat S⟩ := by
  have hBlen : (List.replicate (4 - (natToChars S).length) '0' ++ natToChars S).length = 4 := by
    simp only [List.length_append, List.length_replicate]
    omega
  have htakeA : (natToChars P).take 3 = natToChars P := by
    rw [← hP3]
    exact List.take_length _
  have htakeB : (List.replicate (4 - (natToChars S).length) '0' ++ natToChars S).take 4
      = List.replicate (4 - (natToChars S).length) '0' ++ natToChars S := by
    apply List.take_of_length_le
    omega
  have hlen : (natToChars P ++ '_' ::
      ((List.replicate (4 - (natToChars S).length) '0' ++ natToChars S) ++ suffix)).length
      = 8 + suffix.length := by
    simp only [List.length_append, List.length_cons, hP3, hBlen]
    omega
  have htake3 : (natToChars P ++ '_' ::
      ((List.replicate (4 - (natToChars S).length) '0' ++ natToChars S) ++ suffix)).take 3
      = natToChars P := by
    rw [List.take_append_eq_append_take, htakeA, hP3]
    simp
  have hdropA : (natToChars P).drop 4 = [] := by
    apply List.drop_eq_nil_of_le
    omega
  have hdrop4 : (natToChars P ++ '_' ::
      ((List.replicate (4 - (natToChars S).length) '0' ++ natToChars S) ++ suffix)).drop 4
      = (List.replicate (4 - (natToChars S).length) '0' ++ natToChars S) ++ suffix := by
    rw [List.drop_append_eq_append_drop, hdropA, hP3]
    simp
  have htake4 : ((List.replicate (4 - (natToChars S).length) '0' ++ natToChars S) ++ suffix).take 4
      = List.replicate (4 - (natToChars S).length) '0' ++ natToChars S := by
    rw [List.take_append_eq_append_take, htakeB, hBlen]
    simp
  unfold fromPageStr
  rw [if_neg (by omega), htake3, parseI32_natToChars]
  simp only [Option.some_bind]
  rw [if_neg (by omega), hdrop4, htake4, parseI32_pad]
  simp only [Option.some_bind]

/-- Claim C1 (amended): for pages of exactly three digits
(`100 ≤ page ≤ 999`) and `0 ≤ sub_page ≤ 9999`, `from_page_str` inverts
both serialization forms; the sub page is zero-padded to four digits,
while the page is rendered unpadded (which is why the range below 100 is
excluded). -/
theorem page_str_roundtrip (p s : Int) (h1 : 100 ≤ p) (h2 : p ≤ 999)
    (h3 : 0 ≤ s) (h4 : s ≤ 9999) :
    fromPageStr (toPageStrText ⟨p, s⟩) = some ⟨p, s⟩ ∧
    fromPageStr (toPageStrImage ⟨p, s⟩) = some ⟨p, s⟩ := by
  have hPeq : Int.ofNat p.toNat = p := Int.toNat_of_nonneg (by omega)
  have hSeq : Int.ofNat s.toNat = s := Int.toNat_of_nonneg h3
  have hpow3 : (10 : Nat) ^ 3 = 1000 := by norm_num
  have hpow2 : (10 : Nat) ^ 2 = 100 := by norm_num
  have hpow4 : (10 : Nat) ^ 4 = 10000 := by norm_num
  have hP3 : (natToChars p.toNat).length = 3 := by
    have hle := natToChars_length_le 3 p.toNat (by omega) (by omega)
    have hge := natToChars_length_ge 2 p.toNat (by omega)
    omega
  have hS4 : (natToChars s.toNat).length ≤ 4 := by
    exact natToChars_length_le 4 s.toNat (by omega) (by omega)
  have hchars : intToChars p = natToChars p.toNat := by
    unfold intToChars
    rw [if_neg (by omega)]
  have hpad : intToCharsPad4 s
      = List.replicate (4 - (natToChars s.toNat).length) '0' ++ natToChars s.toNat := by
    unfold intToCharsPad4
    rw [if_neg (by omega)]
  constructor
  · show fromPageStr (intToChars p ++ '_' :: (intToCharsPad4 s ++ ".htm".toList)) = _
    rw [hchars, hpad]
    rw [fromPageStr_shape p.toNat s.toNat (".htm".toList) hP3 hS4]
    rw [hPeq, hSeq]
  · show fromPageStr (intToChars p ++ '_' :: intToCharsPad4 s) = _
    rw [hchars, hpad]
    have hnil : List.replicate (4 - (natToChars s.toNat).length) '0' ++ natToChars s.toNat
        = (List.replicate (4 - (natToChars s.toNat).length) '0' ++ natToChars s.toNat) ++ ([] : List Char) := by
      simp
    rw [hnil, fromPageStr_shape p.toNat s.toNat [] hP3 hS4]
    rw [hPeq, hSeq]

/-- Witness for C1 (amended): the round trip at the concrete address
`561/3` in both forms. -/
theorem page_str_roundtrip_witness :
    fromPageStr (toPageStrText ⟨561, 3⟩) = some ⟨561, 3⟩ ∧
    fromPageStr (toPageStrImage ⟨561, 3⟩) = some ⟨561, 3⟩ :=
  page_str_roundtrip 561 3 (by decide) (by decide) (by decide) (by decide)

/-- Counterexample for C1 as stated: at `page = 5`, `to_page_str` emits
`5_0001.htm` — the page is not zero-padded to three digits — and
`from_page_str` then panics instead of returning the original address. -/
theorem page_str_roundtrip_counterexample :
    fromPageStr (toPageStrText ⟨5, 1⟩) ≠ some ⟨5, 1⟩ ∧
    fromPageStr (toPageStrText ⟨5, 1⟩) = none ∧
    toPageStrText ⟨5, 1⟩ = "5_0001.htm".toList := by
  refine ⟨by decide, by decide, by decide⟩

/-- Claim C4: an anchor in a middle body row is emitted as a `Link`
exactly when its href url is 12 bytes long; any other length is demoted
to a `Text` item carrying the anchor's entity-decoded label, never a
parse error. -/
theorem middle_link_twelve_byte_rule (s s2 : List Char) (link : HtmlLink)
    (h : parseCurrentLink s = .ok (s2, link)) :
    ((parseMiddleLink s = .ok (s2, .inl link)) ↔ utf8Len link.url = 12) ∧
    (utf8Len link.url ≠ 12 →
      parseMiddleLink s = .ok (s2, .inr link.inner_text)) := by
  unfold parseMiddleLink
  rw [h]
  by_cases h12 : utf8Len link.url = 12 <;> simp [h12]

/-- Witness for C4: a three-byte url is demoted to its label text. -/
theorem middle_link_twelve_byte_rule_witness :
    parseCurrentLink "<a href=\"123\">lab</a>x".toList
      = .ok (['x'], ⟨"123".toList, "lab".toList⟩) ∧
    parseMiddleLink "<a href=\"123\">lab</a>x".toList
      = .ok (['x'], .inr "lab".toList) :=
  ⟨rfl,
   (middle_link_twelve_byte_rule ("<a href=\"123\">lab</a>x".toList) ['x']
     ⟨"123".toList, "lab".toList⟩ (by decide)).2 (by decide)⟩

/-- The fixed-slot top-navigation loop adds exactly one item per
remaining slot. -/
theorem topNavAux_length (k : Nat) : ∀ ii cur acc cur2 l,
    topNavAux k ii cur acc = .ok (cur2, l) → l.length = acc.length + k := by
  induction k with
  | zero =>
    intro ii cur acc cur2 l h
    unfold topNavAux at h
    cases h
    simp
  | succ k ih =>
    intro ii cur acc cur2 l h
    unfold topNavAux at h
    repeat' split at h
    all_goals
      first
      | exact absurd h (by simp)
      | (have hrec := ih _ _ _ _ _ h
         simp only [List.length_append, List.length_singleton] at hrec
         omega)

/-- The bottom-navigation loop adds exactly one link per remaining
iteration. -/
theorem bottomNavAux_length (k : Nat) : ∀ cur acc cur2 l,
    bottomNavAux k cur acc = .ok (cur2, l) → l.length = acc.length + k := by
  induction k with
  | zero =>
    intro cur acc cur2 l h
    unfold bottomNavAux at h
    cases h
    simp
  | succ k ih =>
    intro cur acc cur2 l h
    unfold bottomNavAux at h
    split at h
    · exact absurd h (by simp)
    · have := ih _ _ _ _ h
      simp only [List.length_append, List.length_singleton] at this
      omega

/-- Claim C5: whenever the whole TextPage parse succeeds, the document
has exactly four top-navigation items and exactly six bottom-navigation
links; and a bottom section offering only five anchors is a hard parse
error rather than a shorter list. -/
theorem text_page_nav_counts (s : List Char) (t : TeleTextDoc)
    (h : parseTeleText s = .ok t) :
    t.page_navigation.length = 4 ∧ t.bottom_navigation.length = 6 ∧
    parseBottomNavigation
        ("<p><a href=\"u\">1</a><a href=\"u\">2</a><a href=\"u\">3</a>" ++
          "<a href=\"u\">4</a><a href=\"u\">5</a>").toList
      = .error .InvalidPage := by
  refine ?_
  unfold parseTeleText at h
  cases h1 : parseTitle s with
  | error e => simp [h1] at h
  | ok r1 =>
    obtain ⟨s1, title⟩ := r1
    simp only [h1] at h
    cases h2 : parseTopNavigation s1 with
    | error e => simp [h2] at h
    | ok r2 =>
      obtain ⟨s2, topNav⟩ := r2
      simp only [h2] at h
      cases h3 : parseMiddle s2 with
      | err => simp [h3] at h
      | panics => simp [h3] at h
      | diverges => simp [h3] at h
      | fuelOut => simp [h3] at h
      | rows mid s3 =>
        simp only [h3] at h
        cases h4 : parseSubPages s3 with
        | err => simp [h4] at h
        | diverges => simp [h4] at h
        | fuelOut => simp [h4] at h
        | ok s4 subs =>
          simp only [h4] at h
          cases h5 : parseBottomNavigation s4 with
          | error e => simp [h5] at h
          | ok r5 =>
            obtain ⟨s5, bottom⟩ := r5
            simp only [h5] at h
            cases h
            refine ⟨?_, ?_, by decide⟩
            · unfold parseTopNavigation at h2
              split at h2
              · exact absurd h2 (by simp)
              · simpa using topNavAux_length 4 0 _ [] s2 topNav h2
            · unfold parseBottomNavigation at h5
              split at h5
              · exact absurd h5 (by simp)
              · simpa using bottomNavAux_length 6 _ [] s5 bottom h5

/-- A minimal well-formed TextPage document, used to witness a
successful whole-document parse. -/
def c5Doc : List Char :=
  ("<big>T</big><SPAN><a href=\"u\">A</a>&nbsp;|&nbsp;<a href=\"u\">B</a>" ++
    "&nbsp;|&nbsp;<a href=\"u\">C</a>&nbsp;|&nbsp;<a href=\"u\">D</a><pre>\r\n" ++
    "</pre><p></p><p><a href=\"u\">1</a><a href=\"u\">2</a><a href=\"u\">3</a>" ++
    "<a href=\"u\">4</a><a href=\"u\">5</a><a href=\"u\">6</a>").toList

/-- The document `c5Doc` parses to. -/
def c5Res : TeleTextDoc :=
  ⟨"T".toList,
    [.Link ⟨"u".toList, "A".toList⟩, .Link ⟨"u".toList, "B".toList⟩,
      .Link ⟨"u".toList, "C".toList⟩, .Link ⟨"u".toList, "D".toList⟩],
    [⟨"u".toList, "1".toList⟩, ⟨"u".toList, "2".toList⟩, ⟨"u".toList, "3".toList⟩,
      ⟨"u".toList, "4".toList⟩, ⟨"u".toList, "5".toList⟩, ⟨"u".toList, "6".toList⟩],
    [], [[]]⟩

/-- Witness for C5: `c5Doc` parses successfully and the counts are as
claimed. -/
theorem text_page_nav_counts_witness :
    parseTeleText c5Doc = .ok c5Res ∧
    (c5Res.page_navigation.length = 4 ∧ c5Res.bottom_navigation.length = 6 ∧
      parseBottomNavigation
          ("<p><a href=\"u\">1</a><a href=\"u\">2</a><a href=\"u\">3</a>" ++
            "<a href=\"u\">4</a><a href=\"u\">5</a>").toList
        = .error .InvalidPage) := by
  have h : parseTeleText c5Doc = .ok c5Res := by decide
  exact ⟨h, text_page_nav_counts c5Doc c5Res h⟩

/-- Claim C3: for every load attempt that fails, the resulting
`FetchState` is `InitFailed` iff the state observed before the attempt
was `Init` or `InitFailed`, and is `Error` otherwise; in particular a
failure on the very first load yields `InitFailed` and a failure after
any prior `Complete` yields `Error`. -/
theorem load_failure_classification {α : Type} (prior : FetchState α) (e : Unit) :
    ((loadPageTaskResult prior (.error e) = .InitFailed) ↔
      (prior = .Init ∨ prior = .InitFailed)) ∧
    ((loadPageTaskResult prior (.error e) = .Error) ↔
      ¬(prior = .Init ∨ prior = .InitFailed)) ∧
    loadPageTaskResult (FetchState.Init : FetchState α) (.error e) = .InitFailed ∧
    (∀ d : α, loadPageTaskResult (.Complete d) (.error e) = .Error) := by
  refine ⟨?_, ?_, rfl, fun d => rfl⟩ <;> cases prior <;> simp [loadPageTaskResult]

/-- Claim C2 (code bug): on the native build, a transport failure — and
likewise a parse failure — makes the generic `GuiContext` load task
panic (the `unwrap`s in `fetch_page`), leaving the shared state at
`Fetching`; it never writes `Error` or `InitFailed` as the spec
requires. -/
theorem native_fetch_failure_panics_leaves_fetching {α : Type}
    (parse : List Char → Except ParseErr α) (prior : FetchState α) :
    loadPageTaskNativeCommon parse prior .err = (true, .Fetching) ∧
    (∀ body, parse body = .error .InvalidPage →
      loadPageTaskNativeCommon parse prior (.ok body) = (true, .Fetching)) := by
  constructor
  · rfl
  · intro body hb
    simp [loadPageTaskNativeCommon, fetchPageNativeCommon, hb]

/-- A parse function that always fails, used to witness the panic path of
the native load task. -/
def alwaysErrParse : List Char → Except ParseErr TeleTextDoc :=
  fun _ => .error .InvalidPage

/-- Witness for C2: both failure paths, evaluated at a concrete parse
function and prior state. -/
theorem native_fetch_failure_panics_leaves_fetching_witness :
    loadPageTaskNativeCommon alwaysErrParse (FetchState.Init : FetchState TeleTextDoc) .err
      = (true, .Fetching) ∧
    loadPageTaskNativeCommon alwaysErrParse (FetchState.Init : FetchState TeleTextDoc) (.ok [])
      = (true, .Fetching) :=
  ⟨(native_fetch_failure_panics_leaves_fetching alwaysErrParse .Init).1,
   (native_fetch_failure_panics_leaves_fetching alwaysErrParse .Init).2 [] rfl⟩

/-- Claim C9 (code bug): a base64 run that fails to decode makes
`parse_image` panic (the `unwrap` on `decode`), instead of returning the
`InvalidImageData` error the spec promises. -/
theorem parse_image_invalid_base64_panics :
    base64Decode "!!!!".toList = none ∧
    parseImage "data:image/png;base64,!!!!\"rest".toList = none := by
  exact ⟨rfl, rfl⟩

/-- Claim C8 (code bug): with the closing `</pre>` absent, `parse_middle`
panics when the last line's CR reaches the end of the buffer (the
`&parse_text[line_len + 2..]` slice), and loops forever when a line
holds a `<` that does not classify as an anchor — instead of always
returning `MalformedDocument`. -/
theorem parse_middle_missing_terminator_panics_or_diverges :
    parseMiddle "<pre>x\r".toList = .panics ∧
    parseMiddle "<pre>\r\n<b\r\n".toList = .diverges := by
  exact ⟨rfl, rfl⟩

/-- Claim C6: the concrete history trace — `add` truncates forward
history on branch, and `prev_trunc` drops the abandoned entry, which no
later `next` can reach. -/
theorem history_trace_add_prev_trunc :
    (TeleHistory.new ⟨100, 1⟩).add ⟨101, 1⟩
      = ⟨[⟨100, 1⟩, ⟨101, 1⟩], 1⟩ ∧
    ((TeleHistory.new ⟨100, 1⟩).add ⟨101, 1⟩).add ⟨102, 1⟩
      = ⟨[⟨100, 1⟩, ⟨101, 1⟩, ⟨102, 1⟩], 2⟩ ∧
    (⟨[⟨100, 1⟩, ⟨101, 1⟩, ⟨102, 1⟩], 2⟩ : TeleHistory).prev
      = some (⟨[⟨100, 1⟩, ⟨101, 1⟩, ⟨102, 1⟩], 1⟩, some ⟨101, 1⟩) ∧
    (⟨[⟨100, 1⟩, ⟨101, 1⟩, ⟨102, 1⟩], 1⟩ : TeleHistory).add ⟨103, 1⟩
      = ⟨[⟨100, 1⟩, ⟨101, 1⟩, ⟨103, 1⟩], 2⟩ ∧
    (⟨[⟨100, 1⟩, ⟨101, 1⟩, ⟨102, 1⟩], 2⟩ : TeleHistory).prev_trunc
      = some (⟨[⟨100, 1⟩, ⟨101, 1⟩], 1⟩, some ⟨101, 1⟩) ∧
    (⟨[⟨100, 1⟩, ⟨101, 1⟩], 1⟩ : TeleHistory).next
      = some (⟨[⟨100, 1⟩, ⟨101, 1⟩], 1⟩, none) := by
  decide

/-- Claim C7: the invariant `cursor < pages.length` holds after
construction and is preserved by `add`, `prev`, `next` and `prev_trunc`
(none of which panics) from every state satisfying it. -/
theorem history_invariant_preserved (p q : TelePage) (h : TeleHistory)
    (hInv : h.Inv) :
    (TeleHistory.new p).Inv ∧
    (h.add q).Inv ∧
    (∃ h2 r, h.prev = some (h2, r) ∧ h2.Inv) ∧
    (∃ h2 r, h.next = some (h2, r) ∧ h2.Inv) ∧
    (∃ h2 r, h.prev_trunc = some (h2, r) ∧ h2.Inv) := by
  unfold TeleHistory.Inv at hInv
  refine ⟨?_, ?_, ?_, ?_, ?_⟩
  · simp [TeleHistory.new, TeleHistory.Inv]
  · unfold TeleHistory.add TeleHistory.Inv
    simp only [List.length_append, List.length_take, List.length_singleton]
    omega
  · unfold TeleHistory.prev
    by_cases hc : h.current > 0
    · rw [if_pos hc]
      have hlt : h.current - 1 < h.pages.length := by omega
      rw [List.get?_eq_get hlt]
      exact ⟨_, _, rfl, hlt⟩
    · rw [if_neg hc]
      exact ⟨h, none, rfl, hInv⟩
  · unfold TeleHistory.next
    by_cases hc : h.current < h.pages.length - 1
    · rw [if_pos hc]
      have hlt : h.current + 1 < h.pages.length := by omega
      rw [List.get?_eq_get hlt]
      exact ⟨_, _, rfl, hlt⟩
    · rw [if_neg hc]
      exact ⟨h, none, rfl, hInv⟩
  · unfold TeleHistory.prev_trunc
    by_cases hc : h.current > 0
    · rw [if_pos hc]
      have hlen : (h.pages.take h.current).length = h.current := by
        simp only [List.length_take]
        omega
      have hlt : h.current - 1 < (h.pages.take h.current).length := by omega
      simp only [List.get?_eq_get hlt]
      refine ⟨_, _, rfl, ?_⟩
      unfold TeleHistory.Inv
      simp only [hlen]
      omega
    · rw [if_neg hc]
      exact ⟨h, none, rfl, hInv⟩

/-- Witness for C7: the invariant theorem applied to a concrete
two-entry history with the cursor at the end. -/
theorem history_invariant_preserved_witness :
    (⟨[⟨100, 1⟩, ⟨101, 1⟩], 1⟩ : TeleHistory).Inv ∧
    ((TeleHistory.new ⟨100, 1⟩).Inv ∧
      ((⟨[⟨100, 1⟩, ⟨101, 1⟩], 1⟩ : TeleHistory).add ⟨102, 1⟩).Inv ∧
      (∃ h2 r, (⟨[⟨100, 1⟩, ⟨101, 1⟩], 1⟩ : TeleHistory).prev = some (h2, r) ∧ h2.Inv) ∧
      (∃ h2 r, (⟨[⟨100, 1⟩, ⟨101, 1⟩], 1⟩ : TeleHistory).next = some (h2, r) ∧ h2.Inv) ∧
      (∃ h2 r, (⟨[⟨100, 1⟩, ⟨101, 1⟩], 1⟩ : TeleHistory).prev_trunc = some (h2, r) ∧ h2.Inv)) :=
  ⟨by decide,
   history_invariant_preserved ⟨100, 1⟩ ⟨102, 1⟩ ⟨[⟨100, 1⟩, ⟨101, 1⟩], 1⟩ (by decide)⟩

/-- Claim C10: whenever the fetch state is anything other than
`Complete`, `handle_input` is a no-op — the context (current page,
history, digit buffer) is unchanged and no load is dispatched. -/
theorem handle_input_noop_unless_complete (ctx : YleCtx) (inp : InputEv)
    (h : ctx.state.isComplete = false) :
    handleInput ctx inp = some (ctx, []) := by
  unfold handleInput
  rw [if_pos h]

/-- Witness for C10: a concrete non-`Complete` context with a digit key
and both pointer buttons released is left untouched. -/
theorem handle_input_noop_unless_complete_witness :
    (YleCtx.mk .Init ⟨100, 1⟩ (.new ⟨100, 1⟩) []).state.isComplete = false ∧
    handleInput (YleCtx.mk .Init ⟨100, 1⟩ (.new ⟨100, 1⟩) []) ⟨some 1, true, true⟩
      = some (YleCtx.mk .Init ⟨100, 1⟩ (.new ⟨100, 1⟩) [], []) :=
  ⟨rfl, handle_input_noop_unless_complete _ _ rfl⟩

end Teletext
